import Mathlib

/-!
Shallow embedding of `zerospeech2021/cli/evaluate.py`: the evaluation
orchestration pipeline of the ZeroSpeech 2021 challenge.  Pure data is
modelled directly; the filesystem, the process environment and the four
track evaluators (whose internals are out of scope / external to this
file's sources) are parameters of a `World` record.  The pipeline is a
function from a `World` and the CLI arguments to a `RunResult` recording
the resolved split set, the gold root in use, the component trace, the
printed diagnostic lines, the gold/submission paths it accessed, the
score files it wrote and the final process outcome.
-/

namespace ZR2021

/-- A cell of a score table: either a plain string or a numeric value held in
fixed point as an integer count of ten-thousandths (so that the 4-decimal
rendering of pandas' float_format %.4f is exact). -/
inductive Cell where
  | str (s : String)
  | num (v : Int)
deriving DecidableEq, Repr

/-- A score table: a header (column names) and rows of cells, as returned by
the lexical / syntactic / semantic evaluators. -/
structure ScoreTable where
  header : List String
  rows : List (List Cell)
deriving DecidableEq, Repr

/-- Zero-pad a natural number below 10000 to four digits. -/
def pad4 (n : Nat) : String :=
  if n < 10 then "000" ++ toString n
  else if n < 100 then "00" ++ toString n
  else if n < 1000 then "0" ++ toString n
  else toString n

/-- Render a fixed-point value (ten-thousandths) as a 4-decimal string, the
effect of float_format %.4f. -/
def fmt4 (v : Int) : String :=
  (if v < 0 then "-" else "") ++ toString (v.natAbs / 10000) ++ "." ++ pad4 (v.natAbs % 10000)

/-- Render one cell. -/
def renderCell : Cell → String
  | Cell.str s => s
  | Cell.num v => fmt4 v

/-- Modelled from the spec: pandas `DataFrame.to_csv` is external to this
repository's sources.  Per the spec's Score Writer contract it serializes a
header row then the rows in order, comma delimited, numeric columns at fixed
4-decimal precision; with `index = true` a leading index column of row
numbers is prepended, with `index = false` (the only mode the pipeline uses)
no index column is emitted. -/
def toCsvLines (t : ScoreTable) (index : Bool) : List String :=
  if index then
    (String.intercalate "," ("" :: t.header)) ::
      t.rows.enum.map (fun p => String.intercalate "," (toString p.1 :: p.2.map renderCell))
  else
    (String.intercalate "," t.header) :: t.rows.map (fun r => String.intercalate "," (r.map renderCell))

/-- An accessed path: a base filesystem root (dataset root or staged
submission root, an opaque string) plus the pathlib segments joined onto it
by the pipeline (`dataset / 'lexical' / kind / 'gold.csv'` becomes base
`dataset`, segments `["lexical", kind, "gold.csv"]`). -/
structure APath where
  base : String
  segs : List String
deriving DecidableEq, Repr

/-- The parsed content of a well-formed `meta.yaml` document, as far as the
pipeline reads it: presence of the `parameters` key, of its `semantic`
sub-key, and the optional `metric` and `pooling` values below that. -/
structure MetaDoc where
  hasParameters : Bool
  hasSemantic : Bool
  metric : Option String
  pooling : Option String
deriving DecidableEq, Repr

/-- State of the submission's `meta.yaml`: absent (open fails), present but
not valid yaml (safe_load fails), or parsed into a `MetaDoc`. -/
inductive MetaFile where
  | absent
  | malformed
  | doc (d : MetaDoc)
deriving DecidableEq, Repr

/-- Python exception classes the pipeline can raise, with their payloads.
Only `valueError` is of ValueError class; `fileNotFound` is an OSError
subclass, `keyError` a LookupError subclass and `yamlParse` a yaml library
error. -/
inductive Err where
  | valueError (msg : String)
  | fileNotFound (path : String)
  | keyError (key : String)
  | yamlParse
deriving DecidableEq, Repr

/-- Component-level events of one pipeline run, in execution order:
split-set/gold-root resolution, submission resolution and staging, the
output-directory step, and one event per executed track evaluator. -/
inductive Event where
  | resolver
  | stager
  | mkdirOutput
  | evalLexical
  | evalSemantic
  | evalSyntactic
  | evalPhonetic
deriving DecidableEq, Repr

/-- Final process outcome: clean success, a ValueError caught by the
top-level handler (which prints `ERROR: msg` and calls sys.exit(-1)), or an
exception of another class that propagates uncaught. -/
inductive Outcome where
  | success
  | caught (msg : String)
  | uncaught (e : Err)
deriving DecidableEq, Repr

/-- Process exit code of an outcome: 0 on success, -1 via sys.exit(-1) on a
caught ValueError, 1 (the interpreter's default) on an uncaught exception. -/
def exitCode : Outcome → Int
  | Outcome.success => 0
  | Outcome.caught _ => -1
  | Outcome.uncaught _ => 1

/-- Accumulated state of the body of `evaluate` (inside the try block). -/
structure BodyState where
  kinds : List String
  goldRoot : String
  trace : List Event
  printed : List String
  accessed : List APath
  written : List (String × List String)
  outputDirCreated : Bool
deriving DecidableEq, Repr

/-- The ambient world of one run: the `ZEROSPEECH2021_TEST_GOLD` environment
variable, the filesystem predicates consulted by the pipeline (existence for
resolve(strict=True), is_dir, is_file, zipfile.is_zipfile), the state of the
staged submission's `meta.yaml`, and the four external track evaluators.
The evaluator fields model `lexical.evaluate`, `semantic.evaluate`,
`syntactic.evaluate` and `phonetic.evaluate`, which are imported from
outside this file's sources; per the spec they are deterministic functions
of the paths (and, for semantic, the metric/pooling parameters) they are
given.  `phonEval` yields the stratification name and table of each file
the phonetic evaluator writes on its own. -/
structure World where
  env : Option String
  pathExistsF : String → Bool
  isDirF : String → Bool
  isFileF : String → Bool
  isZipF : String → Bool
  metaYaml : MetaFile
  lexEval : APath → APath → ScoreTable × ScoreTable × ScoreTable
  semEval : APath → APath → APath → String → String → ScoreTable
  synEval : APath → APath → ScoreTable × ScoreTable
  phonEval : APath → APath → String → List (String × ScoreTable)

/-- The CLI arguments of the `evaluate` command. -/
structure Args where
  dataset : String
  submission : String
  outputDirectory : String
  noPhonetic : Bool
  noLexical : Bool
  noSyntactic : Bool
  noSemantic : Bool
deriving DecidableEq, Repr

/-- The temporary directory created by tempfile.mkdtemp when the submission
is a zip archive (an opaque fresh path). -/
def tempDir : String := "TMP_SUBMISSION_UNZIP"

/-- Reading `meta['parameters']['semantic']['metric']` and then
`meta['parameters']['semantic']['pooling']` from the submission's meta.yaml,
with the exact failures of the source: FileNotFoundError when the file is
absent, a yaml parse error when it is malformed, and a KeyError on the first
missing key, `metric` being read before `pooling`. -/
def readSemanticParams : MetaFile → Except Err (String × String)
  | MetaFile.absent => Except.error (Err.fileNotFound "meta.yaml")
  | MetaFile.malformed => Except.error Err.yamlParse
  | MetaFile.doc d =>
    if d.hasParameters = false then Except.error (Err.keyError "parameters")
    else if d.hasSemantic = false then Except.error (Err.keyError "semantic")
    else
      match d.metric with
      | none => Except.error (Err.keyError "metric")
      | some metric =>
        match d.pooling with
        | none => Except.error (Err.keyError "pooling")
        | some pooling => Except.ok (metric, pooling)

/-- One `kind` iteration of `eval_lexical`: the printed line, the accessed
gold and submission paths, and the three score files written. -/
def lexKind (w : World) (dataset submission kind : String) :
    List String × List APath × List (String × List String) :=
  let gold : APath := ⟨dataset, ["lexical", kind, "gold.csv"]⟩
  let sub : APath := ⟨submission, ["lexical", kind ++ ".txt"]⟩
  let t := w.lexEval gold sub
  (["Evaluating lexical " ++ kind ++ "..."],
   [gold, sub],
   [("score_lexical_" ++ kind ++ "_by_pair.csv", toCsvLines t.1 false),
    ("score_lexical_" ++ kind ++ "_by_frequency.csv", toCsvLines t.2.1 false),
    ("score_lexical_" ++ kind ++ "_by_length.csv", toCsvLines t.2.2 false)])

/-- `eval_lexical`: one iteration per kind, effects in order. -/
def eval_lexical (w : World) (dataset submission : String) (kinds : List String) :
    List String × List APath × List (String × List String) :=
  let per := kinds.map (lexKind w dataset submission)
  ((per.map (fun r => r.1)).flatten,
   (per.map (fun r => r.2.1)).flatten,
   (per.map (fun r => r.2.2)).flatten)

/-- One `kind` iteration of `eval_semantic` after the metadata was read. -/
def semKind (w : World) (dataset submission metric pooling kind : String) :
    List String × List APath × List (String × List String) :=
  let gold : APath := ⟨dataset, ["semantic", kind, "gold.csv"]⟩
  let pairs : APath := ⟨dataset, ["semantic", kind, "pairs.csv"]⟩
  let emb : APath := ⟨submission, ["semantic", kind]⟩
  let t := w.semEval gold pairs emb metric pooling
  (["Evaluating semantic " ++ kind ++ " (metric=" ++ metric ++ ", pooling=" ++ pooling ++ ")..."],
   [gold, pairs, emb],
   [("score_semantic_" ++ kind ++ ".csv", toCsvLines t false)])

/-- `eval_semantic`: reads metric and pooling from meta.yaml once, before
the kind loop; on a read failure nothing is printed or written and the error
propagates.  Returns printed lines, accessed paths, written files and the
optional error. -/
def eval_semantic (w : World) (dataset submission : String) (kinds : List String) :
    List String × List APath × List (String × List String) × Option Err :=
  let metaPath : APath := ⟨submission, ["meta.yaml"]⟩
  match readSemanticParams w.metaYaml with
  | Except.error e => ([], [metaPath], [], some e)
  | Except.ok mp =>
    let per := kinds.map (semKind w dataset submission mp.1 mp.2)
    ((per.map (fun r => r.1)).flatten,
     metaPath :: (per.map (fun r => r.2.1)).flatten,
     (per.map (fun r => r.2.2)).flatten,
     none)

/-- One `kind` iteration of `eval_syntactic`. -/
def synKind (w : World) (dataset submission kind : String) :
    List String × List APath × List (String × List String) :=
  let gold : APath := ⟨dataset, ["syntactic", kind, "gold.csv"]⟩
  let sub : APath := ⟨submission, ["syntactic", kind ++ ".txt"]⟩
  let t := w.synEval gold sub
  (["Evaluating syntactic " ++ kind ++ "..."],
   [gold, sub],
   [("score_syntactic_" ++ kind ++ "_by_pair.csv", toCsvLines t.1 false),
    ("score_syntactic_" ++ kind ++ "_by_type.csv", toCsvLines t.2 false)])

/-- `eval_syntactic`: one iteration per kind. -/
def eval_syntactic (w : World) (dataset submission : String) (kinds : List String) :
    List String × List APath × List (String × List String) :=
  let per := kinds.map (synKind w dataset submission)
  ((per.map (fun r => r.1)).flatten,
   (per.map (fun r => r.2.1)).flatten,
   (per.map (fun r => r.2.2)).flatten)

/-- Modelled from the spec: `phonetic.evaluate` is not among this file's
sources; per the spec it writes its own score files directly into the output
directory, one per stratification and split, following the
`score_<track>_<split>_<stratification>.<ext>` naming scheme and the Score
Writer's delimited header-row 4-decimal format.  One `kind` iteration of
`eval_phonetic`: the features location and the abx gold data are accessed,
and each (stratification, table) pair the evaluator produces becomes one
such file. -/
def phonKind (w : World) (dataset submission kind : String) :
    List String × List APath × List (String × List String) :=
  let feats : APath := ⟨submission, ["phonetic", kind]⟩
  let abx : APath := ⟨dataset, ["phonetic", "abx_features"]⟩
  (["Evaluating phonetic " ++ kind ++ "..."],
   [feats, abx],
   (w.phonEval feats abx kind).map
     (fun st => ("score_phonetic_" ++ kind ++ "_" ++ st.1 ++ ".csv", toCsvLines st.2 false)))

/-- `eval_phonetic`: one iteration per kind. -/
def eval_phonetic (w : World) (dataset submission : String) (kinds : List String) :
    List String × List APath × List (String × List String) :=
  let per := kinds.map (phonKind w dataset submission)
  ((per.map (fun r => r.1)).flatten,
   (per.map (fun r => r.2.1)).flatten,
   (per.map (fun r => r.2.2)).flatten)

/-- Append one executed track's event, printed lines, accesses and written
files to the state. -/
def addTrack (s : BodyState) (e : Event) (pr : List String) (ac : List APath)
    (fs : List (String × List String)) : BodyState :=
  { s with trace := s.trace ++ [e], printed := s.printed ++ pr,
           accessed := s.accessed ++ ac, written := s.written ++ fs }

/-- The output-directory step: mkdir(exist_ok, parents) is run only when the
output directory is not already a directory. -/
def mkdirStep (w : World) (a : Args) (s1 : BodyState) : BodyState :=
  { s1 with trace := s1.trace ++ [Event.mkdirOutput],
            outputDirCreated := !(w.isDirF a.outputDirectory) }

/-- The lexical step: skipped under --no-lexical, otherwise `eval_lexical`. -/
def lexStep (w : World) (a : Args) (dataset submission : String) (s : BodyState) : BodyState :=
  if a.noLexical then s else
    let r := eval_lexical w dataset submission s.kinds
    addTrack s Event.evalLexical r.1 r.2.1 r.2.2

/-- The semantic step: skipped under --no-semantic, otherwise `eval_semantic`,
whose metadata-read failure is returned for propagation. -/
def semStep (w : World) (a : Args) (dataset submission : String) (s : BodyState) :
    BodyState × Option Err :=
  if a.noSemantic then (s, none)
  else
    let r := eval_semantic w dataset submission s.kinds
    (addTrack s Event.evalSemantic r.1 r.2.1 r.2.2.1, r.2.2.2)

/-- The syntactic step: skipped under --no-syntactic. -/
def synStep (w : World) (a : Args) (dataset submission : String) (s : BodyState) : BodyState :=
  if a.noSyntactic then s else
    let r := eval_syntactic w dataset submission s.kinds
    addTrack s Event.evalSyntactic r.1 r.2.1 r.2.2

/-- The phonetic step: skipped under --no-phonetic. -/
def phonStep (w : World) (a : Args) (dataset submission : String) (s : BodyState) : BodyState :=
  if a.noPhonetic then s else
    let r := eval_phonetic w dataset submission s.kinds
    addTrack s Event.evalPhonetic r.1 r.2.1 r.2.2

/-- The syntactic and phonetic steps, which follow the semantic step and
cannot raise in this model (their internals are out of scope). -/
def tailTracks (w : World) (a : Args) (dataset submission : String) (s : BodyState) : BodyState :=
  phonStep w a dataset submission (synStep w a dataset submission s)

/-- The output-directory step and the four track steps of the body, reached
once the dataset is validated and the submission staged at `submission`.  An
error from the semantic metadata read aborts the remaining tracks. -/
def runTracks (w : World) (a : Args) (dataset submission : String) (s1 : BodyState) :
    BodyState × Option Err :=
  let s3 := lexStep w a dataset submission (mkdirStep w a s1)
  match semStep w a dataset submission s3 with
  | (s4, some e) => (s4, some e)
  | (s4, none) => (tailTracks w a dataset submission s4, none)

/-- The body of `evaluate` (the contents of the try block): split-set and
gold-root resolution first — `kinds = ['dev']`, plus `'test'` and a
wholesale gold-root replacement when ZEROSPEECH2021_TEST_GOLD is set — then
`dataset.resolve(strict=True)` (FileNotFoundError when the path does not
exist) and the is_dir check (ValueError `dataset not found`), then
submission resolution and staging (FileNotFoundError on a missing path;
unzip of an existing zip file to a fresh temporary directory; ValueError
`submssion is not a zip file or a directory` otherwise), then the tracks. -/
def runBody (w : World) (a : Args) : BodyState × Option Err :=
  let kinds := if w.env.isSome then ["dev", "test"] else ["dev"]
  let dataset := match w.env with
    | some g => g
    | none => a.dataset
  let s0 : BodyState := ⟨kinds, dataset, [Event.resolver], [], [], [], false⟩
  if w.pathExistsF dataset = false then (s0, some (Err.fileNotFound dataset))
  else if w.isDirF dataset = false then
    (s0, some (Err.valueError ("dataset not found: " ++ dataset)))
  else
    let s1 := { s0 with trace := s0.trace ++ [Event.stager] }
    if w.pathExistsF a.submission = false then (s1, some (Err.fileNotFound a.submission))
    else if w.isFileF a.submission && w.isZipF a.submission then
      let s1b := { s1 with printed := s1.printed ++ ["Unzip submission ot " ++ tempDir ++ "..."] }
      runTracks w a dataset tempDir s1b
    else if w.isDirF a.submission = false then
      (s1, some (Err.valueError ("submssion is not a zip file or a directory: " ++ a.submission)))
    else
      runTracks w a dataset a.submission s1

/-- A full run result: the body state plus the outcome. -/
structure RunResult extends BodyState where
  outcome : Outcome
deriving DecidableEq, Repr

/-- The `evaluate` command: run the body inside the single top-level
`except ValueError` handler, which prints one `ERROR: <message>` line and
calls sys.exit(-1); exceptions of any other class propagate uncaught. -/
def runPipeline (w : World) (a : Args) : RunResult :=
  match runBody w a with
  | (s, none) => ⟨s, Outcome.success⟩
  | (s, some (Err.valueError msg)) =>
    ⟨{ s with printed := s.printed ++ ["ERROR: " ++ msg] }, Outcome.caught msg⟩
  | (s, some e) => ⟨s, Outcome.uncaught e⟩

/-- The gold dataset root in force after split resolution: the environment
override when present, the positional argument otherwise. -/
def resolvedGold (w : World) (a : Args) : String :=
  match w.env with
  | some g => g
  | none => a.dataset

/-- The staged submission root: the fresh temporary directory when the
submission is an existing zip file, the submission path itself otherwise. -/
def stagedRoot (w : World) (a : Args) : String :=
  if w.isFileF a.submission && w.isZipF a.submission then tempDir else a.submission

/-- Dataset validation success: the (possibly overridden) gold root exists
and is a directory. -/
def datasetOk (w : World) (a : Args) : Prop :=
  w.pathExistsF (resolvedGold w a) = true ∧ w.isDirF (resolvedGold w a) = true

/-- Submission validation success: the path exists and is either a zip file
or a directory. -/
def submissionOk (w : World) (a : Args) : Prop :=
  w.pathExistsF a.submission = true ∧
    ((w.isFileF a.submission && w.isZipF a.submission) = true ∨ w.isDirF a.submission = true)

/-- The canonical full component order of one run. -/
def fullTrace : List Event :=
  [Event.resolver, Event.stager, Event.mkdirOutput,
   Event.evalLexical, Event.evalSemantic, Event.evalSyntactic, Event.evalPhonetic]

/-- A printed line is a diagnostic line of the form `ERROR: <message>`. -/
def isErrLine (l : String) : Bool := l.data.take 7 == "ERROR: ".data

/-- A file name is of the form `score_<track>_<split>_<stratification>.<ext>`.  -/
def hasStratName (n : String) : Prop :=
  ∃ t s r e : List Char,
    n.data = "score_".data ++ t ++ "_".data ++ s ++ "_".data ++ r ++ ".".data ++ e

/-- A file name begins with `score_semantic`. -/
def isSemanticScoreName (n : String) : Bool := n.data.take 14 == "score_semantic".data

/-- The four tracks. -/
inductive Track where
  | phonetic
  | lexical
  | syntactic
  | semantic
deriving DecidableEq, Repr

/-- Name of a track as it appears in paths and file names. -/
def trackName : Track → String
  | Track.phonetic => "phonetic"
  | Track.lexical => "lexical"
  | Track.syntactic => "syntactic"
  | Track.semantic => "semantic"

/-- The skip flag of a track. -/
def skipFlag (a : Args) : Track → Bool
  | Track.phonetic => a.noPhonetic
  | Track.lexical => a.noLexical
  | Track.syntactic => a.noSyntactic
  | Track.semantic => a.noSemantic

/-- A file name carries the score prefix of a track. -/
def scorePrefixedBy (T : Track) (n : String) : Prop :=
  ("score_" ++ trackName T).data <+: n.data

/-- A finite filesystem predicate. -/
def mkFs (l : List String) : String → Bool := fun p => l.contains p

/-- A small concrete score table for concrete runs. -/
def tbl0 : ScoreTable := ⟨["score"], [[Cell.num 5000]]⟩

/-- A complete well-formed metadata document. -/
def goodMeta : MetaDoc := ⟨true, true, some "cosine", some "mean"⟩

/-- A concrete world: no gold override, gold directory `D`, directory
submission `S`, output directory `out`, plus a plain (non-zip) file `F`;
well-formed metadata and every evaluator returning `tbl0`. -/
def wStd : World :=
  ⟨none, mkFs ["D", "S", "out", "F"], mkFs ["D", "S", "out"], mkFs ["F"], mkFs [],
   MetaFile.doc goodMeta,
   fun _ _ => (tbl0, tbl0, tbl0), fun _ _ _ _ _ => tbl0, fun _ _ => (tbl0, tbl0),
   fun _ _ _ => [("by_type", tbl0)]⟩

/-- `wStd` with the test-gold override set to the gold directory `G`. -/
def wEnv : World :=
  { wStd with env := some "G", pathExistsF := mkFs ["G", "S", "out"],
              isDirF := mkFs ["G", "S", "out"], isFileF := mkFs [] }

/-- `wStd` with a metadata document that lacks the `pooling` key. -/
def wBadMeta : World := { wStd with metaYaml := MetaFile.doc ⟨true, true, some "cosine", none⟩ }

/-- Standard arguments: dataset `D`, submission `S`, output `out`, all four
tracks enabled. -/
def aStd : Args := ⟨"D", "S", "out", false, false, false, false⟩

/-- Body state right after the resolver step. -/
def initState (w : World) (a : Args) : BodyState :=
  ⟨if w.env.isSome then ["dev", "test"] else ["dev"], resolvedGold w a,
   [Event.resolver], [], [], [], false⟩

/-- Body state after a stager step that failed (no unzip happened). -/
def stagerState (w : World) (a : Args) : BodyState :=
  { initState w a with trace := [Event.resolver, Event.stager] }

/-- Body state after a successful stager step, including the unzip print
when the submission was a zip archive. -/
def stagedState (w : World) (a : Args) : BodyState :=
  { initState w a with
    trace := [Event.resolver, Event.stager],
    printed := if w.isFileF a.submission && w.isZipF a.submission
               then ["Unzip submission ot " ++ tempDir ++ "..."] else [] }

/-- Arguments that enable only the lexical track. -/
def aLex : Args := ⟨"D", "S", "out", true, false, true, true⟩

/-- Canonical format of a written file: serialized by the writer without an
index column, and named by the stratified scheme — except the semantic
track, whose file name has no stratification segment. -/
def writtenOk (f : String × List String) : Prop :=
  (∃ t : ScoreTable, f.2 = toCsvLines t false) ∧
  (hasStratName f.1 ∨ ∃ k : String, f.1 = "score_semantic_" ++ k ++ ".csv")

/-- Frame condition of a skipped track over a body state: no written name
carries the track's score prefix and no accessed path enters the track's
gold or submission sub-tree. -/
def trackUntouched (T : Track) (s : BodyState) : Prop :=
  (∀ f ∈ s.written, ¬ scorePrefixedBy T f.1) ∧
  (∀ p ∈ s.accessed, p.segs.head? ≠ some (trackName T))

/-- The handler around the body changes only the printed lines and the
outcome: split set, gold root, trace, accesses, written files and the
output-directory flag are those of the body. -/
theorem runPipeline_preserves (w : World) (a : Args) :
    (runPipeline w a).kinds = (runBody w a).1.kinds ∧
    (runPipeline w a).goldRoot = (runBody w a).1.goldRoot ∧
    (runPipeline w a).trace = (runBody w a).1.trace ∧
    (runPipeline w a).accessed = (runBody w a).1.accessed ∧
    (runPipeline w a).written = (runBody w a).1.written ∧
    (runPipeline w a).outputDirCreated = (runBody w a).1.outputDirCreated := by
  unfold runPipeline
  split <;> simp_all

/-- `addTrack` appends to the effect lists and keeps the other fields. -/
@[simp] theorem addTrack_kinds (s : BodyState) (e : Event) (pr : List String) (ac : List APath)
    (fs : List (String × List String)) : (addTrack s e pr ac fs).kinds = s.kinds := rfl

@[simp] theorem addTrack_goldRoot (s : BodyState) (e : Event) (pr : List String) (ac : List APath)
    (fs : List (String × List String)) : (addTrack s e pr ac fs).goldRoot = s.goldRoot := rfl

@[simp] theorem addTrack_flag (s : BodyState) (e : Event) (pr : List String) (ac : List APath)
    (fs : List (String × List String)) :
    (addTrack s e pr ac fs).outputDirCreated = s.outputDirCreated := rfl

@[simp] theorem addTrack_trace (s : BodyState) (e : Event) (pr : List String) (ac : List APath)
    (fs : List (String × List String)) : (addTrack s e pr ac fs).trace = s.trace ++ [e] := rfl

@[simp] theorem addTrack_printed (s : BodyState) (e : Event) (pr : List String) (ac : List APath)
    (fs : List (String × List String)) : (addTrack s e pr ac fs).printed = s.printed ++ pr := rfl

@[simp] theorem addTrack_accessed (s : BodyState) (e : Event) (pr : List String) (ac : List APath)
    (fs : List (String × List String)) : (addTrack s e pr ac fs).accessed = s.accessed ++ ac := rfl

@[simp] theorem addTrack_written (s : BodyState) (e : Event) (pr : List String) (ac : List APath)
    (fs : List (String × List String)) : (addTrack s e pr ac fs).written = s.written ++ fs := rfl

/-- The per-track steps keep split set, gold root and the creation flag. -/
theorem lexStep_stable (w : World) (a : Args) (dataset submission : String) (s : BodyState) :
    (lexStep w a dataset submission s).kinds = s.kinds ∧
    (lexStep w a dataset submission s).goldRoot = s.goldRoot ∧
    (lexStep w a dataset submission s).outputDirCreated = s.outputDirCreated := by
  unfold lexStep
  split <;> simp

theorem synStep_stable (w : World) (a : Args) (dataset submission : String) (s : BodyState) :
    (synStep w a dataset submission s).kinds = s.kinds ∧
    (synStep w a dataset submission s).goldRoot = s.goldRoot ∧
    (synStep w a dataset submission s).outputDirCreated = s.outputDirCreated := by
  unfold synStep
  split <;> simp

theorem phonStep_stable (w : World) (a : Args) (dataset submission : String) (s : BodyState) :
    (phonStep w a dataset submission s).kinds = s.kinds ∧
    (phonStep w a dataset submission s).goldRoot = s.goldRoot ∧
    (phonStep w a dataset submission s).outputDirCreated = s.outputDirCreated := by
  unfold phonStep
  split <;> simp

theorem semStep_stable (w : World) (a : Args) (dataset submission : String) (s : BodyState) :
    (semStep w a dataset submission s).1.kinds = s.kinds ∧
    (semStep w a dataset submission s).1.goldRoot = s.goldRoot ∧
    (semStep w a dataset submission s).1.outputDirCreated = s.outputDirCreated := by
  unfold semStep
  split <;> simp

theorem tailTracks_stable (w : World) (a : Args) (dataset submission : String) (s : BodyState) :
    (tailTracks w a dataset submission s).kinds = s.kinds ∧
    (tailTracks w a dataset submission s).goldRoot = s.goldRoot ∧
    (tailTracks w a dataset submission s).outputDirCreated = s.outputDirCreated := by
  unfold tailTracks
  have h1 := synStep_stable w a dataset submission s
  have h2 := phonStep_stable w a dataset submission (synStep w a dataset submission s)
  exact ⟨h2.1.trans h1.1, h2.2.1.trans h1.2.1, h2.2.2.trans h1.2.2⟩

/-- `runTracks` keeps split set and gold root, and records whether the
output directory had to be created. -/
theorem runTracks_stable (w : World) (a : Args) (dataset submission : String) (s1 : BodyState) :
    (runTracks w a dataset submission s1).1.kinds = s1.kinds ∧
    (runTracks w a dataset submission s1).1.goldRoot = s1.goldRoot ∧
    (runTracks w a dataset submission s1).1.outputDirCreated = !(w.isDirF a.outputDirectory) := by
  have hm : (mkdirStep w a s1).kinds = s1.kinds ∧ (mkdirStep w a s1).goldRoot = s1.goldRoot ∧
      (mkdirStep w a s1).outputDirCreated = !(w.isDirF a.outputDirectory) := by
    unfold mkdirStep
    exact ⟨rfl, rfl, rfl⟩
  have hl := lexStep_stable w a dataset submission (mkdirStep w a s1)
  have hs := semStep_stable w a dataset submission
    (lexStep w a dataset submission (mkdirStep w a s1))
  unfold runTracks
  dsimp only
  rcases hq : semStep w a dataset submission (lexStep w a dataset submission (mkdirStep w a s1))
    with ⟨s4, e⟩
  rw [hq] at hs
  cases e
  · have ht := tailTracks_stable w a dataset submission s4
    exact ⟨ht.1.trans (hs.1.trans (hl.1.trans hm.1)),
      ht.2.1.trans (hs.2.1.trans (hl.2.1.trans hm.2.1)),
      ht.2.2.trans (hs.2.2.trans (hl.2.2.trans hm.2.2))⟩
  · exact ⟨hs.1.trans (hl.1.trans hm.1), hs.2.1.trans (hl.2.1.trans hm.2.1),
      hs.2.2.trans (hl.2.2.trans hm.2.2)⟩

/-- Split set and gold root are fixed by the resolver step of the body and
never change afterwards. -/
theorem runBody_stable (w : World) (a : Args) :
    (runBody w a).1.kinds = (if w.env.isSome then ["dev", "test"] else ["dev"]) ∧
    (runBody w a).1.goldRoot = resolvedGold w a := by
  unfold runBody resolvedGold
  rcases henv : w.env with _ | g <;>
    simp only [henv, Option.isSome_none, Option.isSome_some, Bool.false_eq_true,
      if_false, if_true] <;>
    (repeat' split) <;>
    first
      | exact ⟨rfl, rfl⟩
      | exact ⟨(runTracks_stable _ _ _ _ _).1.trans rfl,
          (runTracks_stable _ _ _ _ _).2.1.trans rfl⟩

/-- Every path the lexical evaluator touches is under the gold root or the
staged submission. -/
theorem eval_lexical_base (w : World) (d sub : String) (ks : List String) :
    ∀ p ∈ (eval_lexical w d sub ks).2.1, p.base = d ∨ p.base = sub := by
  intro p hp
  unfold eval_lexical lexKind at hp
  simp at hp
  obtain ⟨k, _, hcase⟩ := hp
  rcases hcase with h | h <;> subst h <;> simp

/-- Every path the semantic evaluator touches is under the gold root or the
staged submission (meta.yaml sits at the submission root). -/
theorem eval_semantic_base (w : World) (d sub : String) (ks : List String) :
    ∀ p ∈ (eval_semantic w d sub ks).2.1, p.base = d ∨ p.base = sub := by
  intro p hp
  unfold eval_semantic semKind at hp
  rcases hr : readSemanticParams w.metaYaml with e | mp <;> rw [hr] at hp <;> simp at hp
  · subst hp
    simp
  · rcases hp with h | ⟨k, _, hcase⟩
    · subst h
      simp
    · rcases hcase with h | h | h <;> subst h <;> simp

/-- Every path the syntactic evaluator touches is under the gold root or the
staged submission. -/
theorem eval_syntactic_base (w : World) (d sub : String) (ks : List String) :
    ∀ p ∈ (eval_syntactic w d sub ks).2.1, p.base = d ∨ p.base = sub := by
  intro p hp
  unfold eval_syntactic synKind at hp
  simp at hp
  obtain ⟨k, _, hcase⟩ := hp
  rcases hcase with h | h <;> subst h <;> simp

/-- Every path the phonetic evaluator touches is under the gold root or the
staged submission. -/
theorem eval_phonetic_base (w : World) (d sub : String) (ks : List String) :
    ∀ p ∈ (eval_phonetic w d sub ks).2.1, p.base = d ∨ p.base = sub := by
  intro p hp
  unfold eval_phonetic phonKind at hp
  simp at hp
  obtain ⟨k, _, hcase⟩ := hp
  rcases hcase with h | h <;> subst h <;> simp

/-- Steps only add accesses under the gold root or staged submission. -/
theorem lexStep_base (w : World) (a : Args) (d sub : String) (s : BodyState) :
    ∀ p ∈ (lexStep w a d sub s).accessed,
      p ∈ s.accessed ∨ p.base = d ∨ p.base = sub := by
  intro p hp
  unfold lexStep at hp
  split at hp
  · exact Or.inl hp
  · rw [addTrack_accessed, List.mem_append] at hp
    exact hp.imp_right (eval_lexical_base w d sub s.kinds p)

theorem semStep_base (w : World) (a : Args) (d sub : String) (s : BodyState) :
    ∀ p ∈ (semStep w a d sub s).1.accessed,
      p ∈ s.accessed ∨ p.base = d ∨ p.base = sub := by
  intro p hp
  unfold semStep at hp
  split at hp
  · exact Or.inl hp
  · rw [addTrack_accessed, List.mem_append] at hp
    exact hp.imp_right (eval_semantic_base w d sub s.kinds p)

theorem synStep_base (w : World) (a : Args) (d sub : String) (s : BodyState) :
    ∀ p ∈ (synStep w a d sub s).accessed,
      p ∈ s.accessed ∨ p.base = d ∨ p.base = sub := by
  intro p hp
  unfold synStep at hp
  split at hp
  · exact Or.inl hp
  · rw [addTrack_accessed, List.mem_append] at hp
    exact hp.imp_right (eval_syntactic_base w d sub s.kinds p)

theorem phonStep_base (w : World) (a : Args) (d sub : String) (s : BodyState) :
    ∀ p ∈ (phonStep w a d sub s).accessed,
      p ∈ s.accessed ∨ p.base = d ∨ p.base = sub := by
  intro p hp
  unfold phonStep at hp
  split at hp
  · exact Or.inl hp
  · rw [addTrack_accessed, List.mem_append] at hp
    exact hp.imp_right (eval_phonetic_base w d sub s.kinds p)

/-- All accesses of the track steps are under the gold root or the staged
submission. -/
theorem runTracks_base (w : World) (a : Args) (d sub : String) (s1 : BodyState) :
    ∀ p ∈ (runTracks w a d sub s1).1.accessed,
      p ∈ s1.accessed ∨ p.base = d ∨ p.base = sub := by
  intro p hp
  have hmk : (mkdirStep w a s1).accessed = s1.accessed := rfl
  unfold runTracks at hp
  dsimp only at hp
  rcases hq : semStep w a d sub (lexStep w a d sub (mkdirStep w a s1)) with ⟨s4, e⟩
  rw [hq] at hp
  have hs4 : ∀ q ∈ s4.accessed, q ∈ s1.accessed ∨ q.base = d ∨ q.base = sub := by
    intro q hq4
    have : q ∈ (semStep w a d sub (lexStep w a d sub (mkdirStep w a s1))).1.accessed := by
      rw [hq]
      exact hq4
    rcases semStep_base w a d sub _ q this with h | h
    · rcases lexStep_base w a d sub _ q h with h2 | h2
      · rw [hmk] at h2
        exact Or.inl h2
      · exact Or.inr h2
    · exact Or.inr h
  cases e
  · rcases phonStep_base w a d sub _ p hp with h | h
    · rcases synStep_base w a d sub _ p h with h2 | h2
      · exact hs4 p h2
      · exact Or.inr h2
    · exact Or.inr h
  · exact hs4 p hp

/-- Exhaustive characterization of the body: it fails at dataset
resolution, fails at the dataset directory check, fails at submission
resolution, fails at the submission zip-or-directory check, or reaches the
track steps with the staged submission root — each case tagged with the
filesystem conditions that select it. -/
theorem runBody_char (w : World) (a : Args) :
    (w.pathExistsF (resolvedGold w a) = false ∧
      runBody w a = (initState w a, some (Err.fileNotFound (resolvedGold w a)))) ∨
    (w.pathExistsF (resolvedGold w a) = true ∧ w.isDirF (resolvedGold w a) = false ∧
      runBody w a =
        (initState w a, some (Err.valueError ("dataset not found: " ++ resolvedGold w a)))) ∨
    (datasetOk w a ∧ w.pathExistsF a.submission = false ∧
      runBody w a = (stagerState w a, some (Err.fileNotFound a.submission))) ∨
    (datasetOk w a ∧ w.pathExistsF a.submission = true ∧
      (w.isFileF a.submission && w.isZipF a.submission) = false ∧
      w.isDirF a.submission = false ∧
      runBody w a = (stagerState w a,
        some (Err.valueError ("submssion is not a zip file or a directory: " ++ a.submission)))) ∨
    (datasetOk w a ∧ submissionOk w a ∧
      runBody w a = runTracks w a (resolvedGold w a) (stagedRoot w a) (stagedState w a)) := by
  have hg : (match w.env with | some g => g | none => a.dataset) = resolvedGold w a := rfl
  unfold runBody
  rw [hg]
  cases hex : w.pathExistsF (resolvedGold w a) with
  | false =>
    left
    refine ⟨rfl, ?_⟩
    simp [hex, initState]
  | true =>
    cases hdir : w.isDirF (resolvedGold w a) with
    | false =>
      right; left
      refine ⟨rfl, rfl, ?_⟩
      simp [hex, hdir, initState]
    | true =>
      cases hsx : w.pathExistsF a.submission with
      | false =>
        right; right; left
        refine ⟨⟨hex, hdir⟩, rfl, ?_⟩
        simp [hex, hdir, hsx, stagerState, initState]
      | true =>
        cases hzip : w.isFileF a.submission && w.isZipF a.submission with
        | true =>
          right; right; right; right
          refine ⟨⟨hex, hdir⟩, ⟨hsx, Or.inl hzip⟩, ?_⟩
          simp [hex, hdir, hsx, hzip, stagedRoot, stagedState, initState]
        | false =>
          cases hsd : w.isDirF a.submission with
          | false =>
            right; right; right; left
            refine ⟨⟨hex, hdir⟩, rfl, rfl, rfl, ?_⟩
            simp [hex, hdir, hsx, hzip, hsd, stagerState, initState]
          | true =>
            right; right; right; right
            refine ⟨⟨hex, hdir⟩, ⟨hsx, Or.inr hsd⟩, ?_⟩
            simp [hex, hdir, hsx, hzip, hsd, stagedRoot, stagedState, initState]

/-- Every gold or submission path the body accesses is under the resolved
gold root or under the staged submission root. -/
theorem runBody_base (w : World) (a : Args) :
    ∀ p ∈ (runBody w a).1.accessed,
      p.base = resolvedGold w a ∨ p.base = stagedRoot w a := by
  intro p hp
  rcases runBody_char w a with ⟨_, h⟩ | ⟨_, _, h⟩ | ⟨_, _, h⟩ | ⟨_, _, _, _, h⟩ | ⟨_, _, h⟩ <;>
    rw [h] at hp
  · simp [initState] at hp
  · simp [initState] at hp
  · simp [stagerState, initState] at hp
  · simp [stagerState, initState] at hp
  · rcases runTracks_base w a _ _ _ p hp with h2 | h2
    · simp [stagedState, initState] at h2
    · exact h2

/-- C1: if the ZEROSPEECH2021_TEST_GOLD environment variable is unset the
resolved split set is exactly `["dev"]`; if it is set the split set is
exactly `["dev", "test"]` and the gold root used for all subsequent
evaluation — the root under which every gold-side access happens — is the
variable's value, not the positional dataset argument. -/
theorem c1_split_resolution (w : World) (a : Args) :
    (w.env = none → (runPipeline w a).kinds = ["dev"]) ∧
    (∀ g, w.env = some g →
      (runPipeline w a).kinds = ["dev", "test"] ∧
      (runPipeline w a).goldRoot = g ∧
      ∀ p ∈ (runPipeline w a).accessed, p.base = g ∨ p.base = stagedRoot w a) := by
  obtain ⟨hk, hgr, _, hacc, _, _⟩ := runPipeline_preserves w a
  obtain ⟨hbk, hbg⟩ := runBody_stable w a
  constructor
  · intro henv
    rw [hk, hbk, henv]
    simp
  · intro g henv
    have hrg : resolvedGold w a = g := by
      unfold resolvedGold
      rw [henv]
    refine ⟨?_, ?_, ?_⟩
    · rw [hk, hbk, henv]
      simp
    · rw [hgr, hbg, hrg]
    · intro p hp
      rw [hacc] at hp
      have hb := runBody_base w a p hp
      rw [hrg] at hb
      exact hb

/-- Witness for C1 at a concrete world with the override set to `G`. -/
theorem c1_split_resolution_witness :
    (runPipeline wEnv aStd).kinds = ["dev", "test"] ∧ (runPipeline wEnv aStd).goldRoot = "G" :=
  ⟨((c1_split_resolution wEnv aStd).2 "G" rfl).1, ((c1_split_resolution wEnv aStd).2 "G" rfl).2.1⟩

/-- The track steps read only the flags and the output directory from the
arguments, never the positional dataset field. -/
theorem runTracks_args_eq (w : World) (a a' : Args)
    (ho : a.outputDirectory = a'.outputDirectory) (hl : a.noLexical = a'.noLexical)
    (hse : a.noSemantic = a'.noSemantic) (hsy : a.noSyntactic = a'.noSyntactic)
    (hp : a.noPhonetic = a'.noPhonetic) (d sub : String) (s1 : BodyState) :
    runTracks w a d sub s1 = runTracks w a' d sub s1 := by
  unfold runTracks tailTracks mkdirStep lexStep semStep synStep phonStep
  rw [ho, hl, hse, hsy, hp]

/-- C9: when the test-gold override is set, the positional dataset argument
has no effect at all — two runs identical except for that argument produce
identical results, because the argument is replaced by the override before
any check is applied to it. -/
theorem c9_dataset_argument_unused (w : World) (g : String) (hg : w.env = some g)
    (a : Args) (d1 d2 : String) :
    runPipeline w { a with dataset := d1 } = runPipeline w { a with dataset := d2 } := by
  have hb : runBody w { a with dataset := d1 } = runBody w { a with dataset := d2 } := by
    unfold runBody
    rw [hg]
    dsimp only
    rw [runTracks_args_eq w { a with dataset := d1 } { a with dataset := d2 }
      rfl rfl rfl rfl rfl]
    rfl
  unfold runPipeline
  rw [hb]

/-- Witness for C9: with the override set, runs with dataset arguments `X`
and `Y` coincide. -/
theorem c9_dataset_argument_unused_witness :
    runPipeline wEnv { aStd with dataset := "X" } = runPipeline wEnv { aStd with dataset := "Y" } :=
  c9_dataset_argument_unused wEnv "G" rfl aStd "X" "Y"

/-- C10: the output directory is touched only after the dataset and the
submission have both been validated; when either validation fails, the run
never reaches the mkdir step and the creation flag stays false. -/
theorem c10_output_dir_untouched (w : World) (a : Args)
    (h : ¬(datasetOk w a ∧ submissionOk w a)) :
    (runPipeline w a).outputDirCreated = false ∧
    Event.mkdirOutput ∉ (runPipeline w a).trace := by
  obtain ⟨_, _, htr, _, _, hoc⟩ := runPipeline_preserves w a
  rw [hoc, htr]
  rcases runBody_char w a with ⟨_, hb⟩ | ⟨_, _, hb⟩ | ⟨_, _, hb⟩ | ⟨_, _, _, _, hb⟩ |
    ⟨hc1, hc2, _⟩
  · rw [hb]
    exact ⟨rfl, by simp [initState]⟩
  · rw [hb]
    exact ⟨rfl, by simp [initState]⟩
  · rw [hb]
    exact ⟨rfl, by simp [stagerState, initState]⟩
  · rw [hb]
    exact ⟨rfl, by simp [stagerState, initState]⟩
  · exact absurd ⟨hc1, hc2⟩ h

/-- Witness for C10 at a concrete run whose submission path is missing. -/
theorem c10_output_dir_untouched_witness :
    (runPipeline wStd { aStd with submission := "nope" }).outputDirCreated = false :=
  (c10_output_dir_untouched wStd { aStd with submission := "nope" }
    (by
      intro hcon
      exact absurd hcon.2.1 (by decide))).1

/-- When both validations succeed the body is exactly the track steps run
over the staged submission. -/
theorem runBody_valid (w : World) (a : Args) (h1 : datasetOk w a) (h2 : submissionOk w a) :
    runBody w a = runTracks w a (resolvedGold w a) (stagedRoot w a) (stagedState w a) := by
  rcases runBody_char w a with ⟨hc, _⟩ | ⟨_, hc, _⟩ | ⟨_, hc, _⟩ | ⟨_, _, hc3, hc4, _⟩ |
    ⟨_, _, hb⟩
  · simp [h1.1] at hc
  · simp [h1.2] at hc
  · simp [h2.1] at hc
  · rcases h2.2 with hz | hd
    · simp [hz] at hc3
    · simp [hd] at hc4
  · exact hb

/-- A metadata read never fails with a ValueError: its failures are
FileNotFoundError, a yaml parse error or a KeyError. -/
theorem readSemanticParams_no_valueerror (m : MetaFile) (e : Err)
    (h : readSemanticParams m = Except.error e) : ∀ msg, e ≠ Err.valueError msg := by
  intro msg hcon
  subst hcon
  cases m with
  | absent => simp [readSemanticParams] at h
  | malformed => simp [readSemanticParams] at h
  | doc d =>
    unfold readSemanticParams at h
    repeat' split at h
    all_goals simp_all

/-- A name whose first fourteen characters are not `score_semantic` is not a
semantic score name. -/
theorem take14_of_prefix (n : String) (pre rest : List Char)
    (hn : n.data = pre ++ rest) (hlen : 14 ≤ pre.length)
    (hne : (pre.take 14 == "score_semantic".data) = false) :
    isSemanticScoreName n = false := by
  unfold isSemanticScoreName
  rw [hn, List.take_append_of_le_length hlen]
  exact hne

/-- C2 (corrected): an existing submission that is neither a directory nor a
zip file fails with a ValueError naming the path, caught by the handler with
exit code -1 and no file written; but a missing submission path raises
FileNotFoundError from resolve(strict=True) — an OSError, not a
ValueError-class condition — which propagates uncaught (still no file
written). -/
theorem c2_submission_validation (w : World) (a : Args)
    (hd1 : w.pathExistsF (resolvedGold w a) = true)
    (hd2 : w.isDirF (resolvedGold w a) = true) :
    (w.pathExistsF a.submission = false →
      (runPipeline w a).outcome = Outcome.uncaught (Err.fileNotFound a.submission) ∧
      (runPipeline w a).written = []) ∧
    (w.pathExistsF a.submission = true →
     (w.isFileF a.submission && w.isZipF a.submission) = false →
     w.isDirF a.submission = false →
      (runPipeline w a).outcome =
        Outcome.caught ("submssion is not a zip file or a directory: " ++ a.submission) ∧
      (runPipeline w a).written = [] ∧
      exitCode (runPipeline w a).outcome = -1) := by
  constructor
  · intro hmiss
    rcases runBody_char w a with ⟨hc, _⟩ | ⟨_, hc, _⟩ | ⟨_, _, hb⟩ | ⟨_, hc, _, _, _⟩ |
      ⟨_, hc, _⟩
    · simp [hd1] at hc
    · simp [hd2] at hc
    · unfold runPipeline
      rw [hb]
      exact ⟨rfl, rfl⟩
    · simp [hmiss] at hc
    · have h5 := hc.1
      rw [hmiss] at h5
      exact absurd h5 (by simp)
  · intro hex hzip hdir
    rcases runBody_char w a with ⟨hc, _⟩ | ⟨_, hc, _⟩ | ⟨_, hc, _⟩ | ⟨_, _, _, _, hb⟩ |
      ⟨_, hc, _⟩
    · simp [hd1] at hc
    · simp [hd2] at hc
    · simp [hex] at hc
    · unfold runPipeline
      rw [hb]
      exact ⟨rfl, rfl, rfl⟩
    · rcases hc.2 with hz | hd
      · simp [hzip] at hz
      · simp [hdir] at hd

/-- Counterexample for C2 as stated: at a concrete run whose submission path
does not exist, the failure is an uncaught FileNotFoundError, not a
ValueError-class condition handled by the top-level handler — no `ERROR:`
line is printed and the -1 exit path is not taken. -/
theorem c2_missing_path_counterexample :
    (runPipeline wStd { aStd with submission := "nope" }).outcome =
      Outcome.uncaught (Err.fileNotFound "nope") ∧
    (runPipeline wStd { aStd with submission := "nope" }).printed = [] ∧
    exitCode (runPipeline wStd { aStd with submission := "nope" }).outcome = 1 := by
  decide

/-- Witness for C2 (corrected) at a concrete plain-file submission `F`. -/
theorem c2_submission_validation_witness :
    (runPipeline wStd { aStd with submission := "F" }).outcome =
      Outcome.caught ("submssion is not a zip file or a directory: " ++ "F") ∧
    (runPipeline wStd { aStd with submission := "F" }).written = [] :=
  ⟨((c2_submission_validation wStd { aStd with submission := "F" } (by decide) (by decide)).2
      (by decide) (by decide) (by decide)).1,
   ((c2_submission_validation wStd { aStd with submission := "F" } (by decide) (by decide)).2
      (by decide) (by decide) (by decide)).2.1⟩

/-- With the semantic track enabled, a metadata read error makes the track
steps stop right at the semantic step: nothing of the semantic track is
printed or written, only meta.yaml was touched, and the error propagates. -/
theorem runTracks_semantic_error (w : World) (a : Args) (d sub : String) (s1 : BodyState)
    (hsem : a.noSemantic = false) (e : Err)
    (hmeta : readSemanticParams w.metaYaml = Except.error e) :
    runTracks w a d sub s1 =
      (addTrack (lexStep w a d sub (mkdirStep w a s1)) Event.evalSemantic []
        [⟨sub, ["meta.yaml"]⟩] [], some e) := by
  unfold runTracks
  have hstep : semStep w a d sub (lexStep w a d sub (mkdirStep w a s1)) =
      (addTrack (lexStep w a d sub (mkdirStep w a s1)) Event.evalSemantic []
        [⟨sub, ["meta.yaml"]⟩] [], some e) := by
    unfold semStep eval_semantic
    simp only [hsem, Bool.false_eq_true, if_false, hmeta]
  dsimp only
  rw [hstep]

/-- C3: with the semantic track enabled, a submission metadata record that
is missing, malformed or lacks a required key (such as `pooling`) makes the
run fail with the corresponding uncaught lookup/parse error, raised by the
single up-front metadata read before any per-split semantic scoring: no
file named `score_semantic…` is ever written (regardless of what earlier
tracks already wrote), the later syntactic and phonetic tracks never run,
and no default metric or pooling is assumed. -/
theorem c3_semantic_meta_failure (w : World) (a : Args) (e : Err)
    (hd : datasetOk w a) (hs : submissionOk w a)
    (hsem : a.noSemantic = false)
    (hmeta : readSemanticParams w.metaYaml = Except.error e) :
    (runPipeline w a).outcome = Outcome.uncaught e ∧
    (∀ f ∈ (runPipeline w a).written, isSemanticScoreName f.1 = false) ∧
    Event.evalSyntactic ∉ (runPipeline w a).trace ∧
    Event.evalPhonetic ∉ (runPipeline w a).trace := by
  have hbody : runBody w a =
      (addTrack (lexStep w a (resolvedGold w a) (stagedRoot w a)
          (mkdirStep w a (stagedState w a))) Event.evalSemantic []
        [⟨stagedRoot w a, ["meta.yaml"]⟩] [], some e) :=
    (runBody_valid w a hd hs).trans
      (runTracks_semantic_error w a (resolvedGold w a) (stagedRoot w a) (stagedState w a) hsem e
        hmeta)
  have hne := readSemanticParams_no_valueerror w.metaYaml e hmeta
  obtain ⟨_, _, htr, _, hwr, _⟩ := runPipeline_preserves w a
  have houtcome : (runPipeline w a).outcome = Outcome.uncaught e := by
    unfold runPipeline
    rw [hbody]
    cases e with
    | valueError msg => exact absurd rfl (hne msg)
    | fileNotFound p => rfl
    | keyError k => rfl
    | yamlParse => rfl
  refine ⟨houtcome, ?_, ?_, ?_⟩
  · intro f hf
    rw [hwr, hbody] at hf
    rw [addTrack_written, List.append_nil] at hf
    unfold lexStep at hf
    split at hf
    · simp [mkdirStep, stagedState, initState] at hf
    · rw [addTrack_written] at hf
      rcases List.mem_append.mp hf with h0 | h0
      · simp [mkdirStep, stagedState, initState] at h0
      · unfold eval_lexical lexKind at h0
        simp at h0
        obtain ⟨k, _, hcase⟩ := h0
        rcases hcase with h | h | h
        · rw [h]
          exact take14_of_prefix _ "score_lexical_".data (k.data ++ "_by_pair.csv".data)
            (by simp [String.data_append]) (by decide) (by decide)
        · rw [h]
          exact take14_of_prefix _ "score_lexical_".data (k.data ++ "_by_frequency.csv".data)
            (by simp [String.data_append]) (by decide) (by decide)
        · rw [h]
          exact take14_of_prefix _ "score_lexical_".data (k.data ++ "_by_length.csv".data)
            (by simp [String.data_append]) (by decide) (by decide)
  · rw [htr, hbody]
    rw [addTrack_trace]
    unfold lexStep
    split <;> simp [mkdirStep, stagedState, initState]
  · rw [htr, hbody]
    rw [addTrack_trace]
    unfold lexStep
    split <;> simp [mkdirStep, stagedState, initState]

/-- Witness for C3: a concrete metadata document lacking `pooling` makes the
run fail with an uncaught KeyError on `pooling`. -/
theorem c3_semantic_meta_failure_witness :
    (runPipeline wBadMeta aStd).outcome = Outcome.uncaught (Err.keyError "pooling") ∧
    Event.evalSyntactic ∉ (runPipeline wBadMeta aStd).trace :=
  ⟨(c3_semantic_meta_failure wBadMeta aStd (Err.keyError "pooling")
      (by constructor <;> decide) (by constructor <;> decide) (by decide) (by rfl)).1,
   (c3_semantic_meta_failure wBadMeta aStd (Err.keyError "pooling")
      (by constructor <;> decide) (by constructor <;> decide) (by decide) (by rfl)).2.2.1⟩

/-- A line that starts with at least seven characters different from
`ERROR: ` is not a diagnostic line. -/
theorem notErrLine_of_prefix (n : String) (pre rest : List Char)
    (hn : n.data = pre ++ rest) (hlen : 7 ≤ pre.length)
    (hne : (pre.take 7 == "ERROR: ".data) = false) : isErrLine n = false := by
  unfold isErrLine
  rw [hn, List.take_append_of_le_length hlen]
  exact hne

/-- The handler's line is a diagnostic line, whatever the message. -/
theorem isErrLine_err (msg : String) : isErrLine ("ERROR: " ++ msg) = true := by
  unfold isErrLine
  rw [String.data_append, List.take_append_of_le_length (by decide)]
  rfl

/-- No progress line of the lexical evaluator is a diagnostic line. -/
theorem eval_lexical_printed (w : World) (d sub : String) (ks : List String) :
    ∀ l ∈ (eval_lexical w d sub ks).1, isErrLine l = false := by
  intro l hl
  unfold eval_lexical lexKind at hl
  simp at hl
  obtain ⟨k, _, h⟩ := hl
  rw [h]
  exact notErrLine_of_prefix _ "Evaluating lexical ".data (k.data ++ "...".data)
    (by simp [String.data_append]) (by decide) (by decide)

/-- No progress line of the semantic evaluator is a diagnostic line. -/
theorem eval_semantic_printed (w : World) (d sub : String) (ks : List String) :
    ∀ l ∈ (eval_semantic w d sub ks).1, isErrLine l = false := by
  intro l hl
  unfold eval_semantic semKind at hl
  rcases hr : readSemanticParams w.metaYaml with e | mp <;> rw [hr] at hl <;> simp at hl
  obtain ⟨k, _, h⟩ := hl
  rw [h]
  exact notErrLine_of_prefix _ "Evaluating semantic ".data
    (k.data ++ (" (metric=" ++ mp.1 ++ ", pooling=" ++ mp.2 ++ ")...").data)
    (by simp [String.data_append]) (by decide) (by decide)

/-- No progress line of the syntactic evaluator is a diagnostic line. -/
theorem eval_syntactic_printed (w : World) (d sub : String) (ks : List String) :
    ∀ l ∈ (eval_syntactic w d sub ks).1, isErrLine l = false := by
  intro l hl
  unfold eval_syntactic synKind at hl
  simp at hl
  obtain ⟨k, _, h⟩ := hl
  rw [h]
  exact notErrLine_of_prefix _ "Evaluating syntactic ".data (k.data ++ "...".data)
    (by simp [String.data_append]) (by decide) (by decide)

/-- No progress line of the phonetic evaluator is a diagnostic line. -/
theorem eval_phonetic_printed (w : World) (d sub : String) (ks : List String) :
    ∀ l ∈ (eval_phonetic w d sub ks).1, isErrLine l = false := by
  intro l hl
  unfold eval_phonetic phonKind at hl
  simp at hl
  obtain ⟨k, _, h⟩ := hl
  rw [h]
  exact notErrLine_of_prefix _ "Evaluating phonetic ".data (k.data ++ "...".data)
    (by simp [String.data_append]) (by decide) (by decide)

/-- The track steps print no diagnostic line. -/
theorem lexStep_printed (w : World) (a : Args) (d sub : String) (s : BodyState)
    (hs : ∀ l ∈ s.printed, isErrLine l = false) :
    ∀ l ∈ (lexStep w a d sub s).printed, isErrLine l = false := by
  intro l hl
  unfold lexStep at hl
  split at hl
  · exact hs l hl
  · rw [addTrack_printed] at hl
    rcases List.mem_append.mp hl with h | h
    · exact hs l h
    · exact eval_lexical_printed w d sub s.kinds l h

theorem semStep_printed (w : World) (a : Args) (d sub : String) (s : BodyState)
    (hs : ∀ l ∈ s.printed, isErrLine l = false) :
    ∀ l ∈ (semStep w a d sub s).1.printed, isErrLine l = false := by
  intro l hl
  unfold semStep at hl
  split at hl
  · exact hs l hl
  · rw [addTrack_printed] at hl
    rcases List.mem_append.mp hl with h | h
    · exact hs l h
    · exact eval_semantic_printed w d sub s.kinds l h

theorem synStep_printed (w : World) (a : Args) (d sub : String) (s : BodyState)
    (hs : ∀ l ∈ s.printed, isErrLine l = false) :
    ∀ l ∈ (synStep w a d sub s).printed, isErrLine l = false := by
  intro l hl
  unfold synStep at hl
  split at hl
  · exact hs l hl
  · rw [addTrack_printed] at hl
    rcases List.mem_append.mp hl with h | h
    · exact hs l h
    · exact eval_syntactic_printed w d sub s.kinds l h

theorem phonStep_printed (w : World) (a : Args) (d sub : String) (s : BodyState)
    (hs : ∀ l ∈ s.printed, isErrLine l = false) :
    ∀ l ∈ (phonStep w a d sub s).printed, isErrLine l = false := by
  intro l hl
  unfold phonStep at hl
  split at hl
  · exact hs l hl
  · rw [addTrack_printed] at hl
    rcases List.mem_append.mp hl with h | h
    · exact hs l h
    · exact eval_phonetic_printed w d sub s.kinds l h

/-- The whole track phase prints no diagnostic line. -/
theorem runTracks_printed (w : World) (a : Args) (d sub : String) (s1 : BodyState)
    (hs : ∀ l ∈ s1.printed, isErrLine l = false) :
    ∀ l ∈ (runTracks w a d sub s1).1.printed, isErrLine l = false := by
  have hm : ∀ l ∈ (mkdirStep w a s1).printed, isErrLine l = false := hs
  have hl := lexStep_printed w a d sub _ hm
  have hsem := semStep_printed w a d sub _ hl
  intro l hmem
  unfold runTracks at hmem
  dsimp only at hmem
  rcases hq : semStep w a d sub (lexStep w a d sub (mkdirStep w a s1)) with ⟨s4, e⟩
  rw [hq] at hmem
  have hs4 : ∀ x ∈ s4.printed, isErrLine x = false := by
    intro x hx
    apply hsem
    rw [hq]
    exact hx
  cases e
  · exact phonStep_printed w a d sub _ (synStep_printed w a d sub _ hs4) l hmem
  · exact hs4 l hmem

/-- The body prints no diagnostic line: only the handler does. -/
theorem runBody_printed (w : World) (a : Args) :
    ∀ l ∈ (runBody w a).1.printed, isErrLine l = false := by
  intro l hl
  rcases runBody_char w a with ⟨_, hb⟩ | ⟨_, _, hb⟩ | ⟨_, _, hb⟩ | ⟨_, _, _, _, hb⟩ |
    ⟨_, _, hb⟩ <;> rw [hb] at hl
  · simp [initState] at hl
  · simp [initState] at hl
  · simp [stagerState, initState] at hl
  · simp [stagerState, initState] at hl
  · refine runTracks_printed w a _ _ _ ?_ l hl
    intro x hx
    simp only [stagedState, initState] at hx
    split at hx
    · simp at hx
      rw [hx]
      exact notErrLine_of_prefix _ "Unzip submission ot ".data (tempDir.data ++ "...".data)
        (by simp [String.data_append]) (by decide) (by decide)
    · simp at hx

/-- A caught run comes from a body ValueError: the handler appends one
`ERROR:` line and changes nothing else. -/
theorem runPipeline_caught (w : World) (a : Args) (msg : String)
    (h : (runPipeline w a).outcome = Outcome.caught msg) :
    (runBody w a).2 = some (Err.valueError msg) ∧
    (runPipeline w a).printed = (runBody w a).1.printed ++ ["ERROR: " ++ msg] ∧
    (runPipeline w a).written = (runBody w a).1.written := by
  unfold runPipeline at h ⊢
  rcases hb : runBody w a with ⟨s, e⟩
  rw [hb] at h
  cases e with
  | none => exact absurd h (by simp)
  | some err =>
    cases err with
    | valueError m =>
      have hm : m = msg := by simpa using h
      subst hm
      simp
    | fileNotFound p => exact absurd h (by simp)
    | keyError k => exact absurd h (by simp)
    | yamlParse => exact absurd h (by simp)

/-- C4: whenever a ValueError is caught, exactly one diagnostic line of the
form `ERROR: <message>` is printed (the body printed none), the process
exits with code -1, and the score files already written by earlier tracks
are untouched by the handler (no rollback). -/
theorem c4_valueerror_handler (w : World) (a : Args) (msg : String)
    (h : (runPipeline w a).outcome = Outcome.caught msg) :
    (runPipeline w a).printed.filter isErrLine = ["ERROR: " ++ msg] ∧
    exitCode (runPipeline w a).outcome = -1 ∧
    (runPipeline w a).written = (runBody w a).1.written := by
  obtain ⟨_, hp, hw⟩ := runPipeline_caught w a msg h
  refine ⟨?_, by rw [h]; rfl, hw⟩
  rw [hp, List.filter_append]
  have h1 : (runBody w a).1.printed.filter isErrLine = [] := by
    rw [List.filter_eq_nil_iff]
    intro l hl
    simp [runBody_printed w a l hl]
  rw [h1]
  simp [isErrLine_err]

/-- Witness for C4 at a concrete run whose dataset path `F` exists but is
not a directory. -/
theorem c4_valueerror_handler_witness :
    (runPipeline wStd { aStd with dataset := "F" }).printed.filter isErrLine =
      ["ERROR: " ++ ("dataset not found: " ++ "F")] ∧
    exitCode (runPipeline wStd { aStd with dataset := "F" }).outcome = -1 :=
  ⟨(c4_valueerror_handler wStd { aStd with dataset := "F" } ("dataset not found: " ++ "F")
      (by decide)).1,
   (c4_valueerror_handler wStd { aStd with dataset := "F" } ("dataset not found: " ++ "F")
      (by decide)).2.1⟩

/-- Each track step appends its event or nothing. -/
theorem lexStep_trace (w : World) (a : Args) (d sub : String) (s : BodyState) :
    (lexStep w a d sub s).trace = s.trace ∨
    (lexStep w a d sub s).trace = s.trace ++ [Event.evalLexical] := by
  unfold lexStep
  split
  · exact Or.inl rfl
  · exact Or.inr rfl

theorem semStep_trace (w : World) (a : Args) (d sub : String) (s : BodyState) :
    (semStep w a d sub s).1.trace = s.trace ∨
    (semStep w a d sub s).1.trace = s.trace ++ [Event.evalSemantic] := by
  unfold semStep
  split
  · exact Or.inl rfl
  · exact Or.inr rfl

theorem synStep_trace (w : World) (a : Args) (d sub : String) (s : BodyState) :
    (synStep w a d sub s).trace = s.trace ∨
    (synStep w a d sub s).trace = s.trace ++ [Event.evalSyntactic] := by
  unfold synStep
  split
  · exact Or.inl rfl
  · exact Or.inr rfl

theorem phonStep_trace (w : World) (a : Args) (d sub : String) (s : BodyState) :
    (phonStep w a d sub s).trace = s.trace ∨
    (phonStep w a d sub s).trace = s.trace ++ [Event.evalPhonetic] := by
  unfold phonStep
  split
  · exact Or.inl rfl
  · exact Or.inr rfl

/-- The syntactic/phonetic tail appends at most one event each, in order. -/
theorem tailTracks_trace (w : World) (a : Args) (d sub : String) (s : BodyState) :
    ∃ Y P : List Event, (tailTracks w a d sub s).trace = s.trace ++ Y ++ P ∧
      (Y = [] ∨ Y = [Event.evalSyntactic]) ∧ (P = [] ∨ P = [Event.evalPhonetic]) := by
  unfold tailTracks
  rcases synStep_trace w a d sub s with h1 | h1 <;>
    rcases phonStep_trace w a d sub (synStep w a d sub s) with h2 | h2
  · exact ⟨[], [], by rw [h2, h1]; try simp, Or.inl rfl, Or.inl rfl⟩
  · exact ⟨[], [Event.evalPhonetic], by rw [h2, h1]; try simp, Or.inl rfl, Or.inr rfl⟩
  · exact ⟨[Event.evalSyntactic], [], by rw [h2, h1]; try simp, Or.inr rfl, Or.inl rfl⟩
  · exact ⟨[Event.evalSyntactic], [Event.evalPhonetic], by rw [h2, h1]; try simp,
      Or.inr rfl, Or.inr rfl⟩

/-- The track phase appends, after the output-directory event, at most one
event per track, in the fixed order lexical, semantic, syntactic,
phonetic. -/
theorem runTracks_trace (w : World) (a : Args) (d sub : String) (s1 : BodyState) :
    ∃ L S Y P : List Event,
      (runTracks w a d sub s1).1.trace =
        s1.trace ++ [Event.mkdirOutput] ++ L ++ S ++ Y ++ P ∧
      (L = [] ∨ L = [Event.evalLexical]) ∧ (S = [] ∨ S = [Event.evalSemantic]) ∧
      (Y = [] ∨ Y = [Event.evalSyntactic]) ∧ (P = [] ∨ P = [Event.evalPhonetic]) := by
  have hmk : (mkdirStep w a s1).trace = s1.trace ++ [Event.mkdirOutput] := rfl
  unfold runTracks
  dsimp only
  rcases hq : semStep w a d sub (lexStep w a d sub (mkdirStep w a s1)) with ⟨s4, e⟩
  have hs4 : s4.trace = (lexStep w a d sub (mkdirStep w a s1)).trace ∨
      s4.trace = (lexStep w a d sub (mkdirStep w a s1)).trace ++ [Event.evalSemantic] := by
    have h := semStep_trace w a d sub (lexStep w a d sub (mkdirStep w a s1))
    rw [hq] at h
    exact h
  cases e with
  | some err =>
    rcases lexStep_trace w a d sub (mkdirStep w a s1) with hL | hL <;>
      rcases hs4 with hS | hS
    · exact ⟨[], [], [], [], by simp [hS, hL, hmk], Or.inl rfl, Or.inl rfl, Or.inl rfl,
        Or.inl rfl⟩
    · exact ⟨[], [Event.evalSemantic], [], [], by simp [hS, hL, hmk], Or.inl rfl, Or.inr rfl,
        Or.inl rfl, Or.inl rfl⟩
    · exact ⟨[Event.evalLexical], [], [], [], by simp [hS, hL, hmk], Or.inr rfl, Or.inl rfl,
        Or.inl rfl, Or.inl rfl⟩
    · exact ⟨[Event.evalLexical], [Event.evalSemantic], [], [], by simp [hS, hL, hmk],
        Or.inr rfl, Or.inr rfl, Or.inl rfl, Or.inl rfl⟩
  | none =>
    obtain ⟨Y, P, hYP, hY, hP⟩ := tailTracks_trace w a d sub s4
    rcases lexStep_trace w a d sub (mkdirStep w a s1) with hL | hL <;>
      rcases hs4 with hS | hS
    · exact ⟨[], [], Y, P, by simp [hYP, hS, hL, hmk], Or.inl rfl, Or.inl rfl, hY, hP⟩
    · exact ⟨[], [Event.evalSemantic], Y, P, by simp [hYP, hS, hL, hmk], Or.inl rfl,
        Or.inr rfl, hY, hP⟩
    · exact ⟨[Event.evalLexical], [], Y, P, by simp [hYP, hS, hL, hmk], Or.inr rfl,
        Or.inl rfl, hY, hP⟩
    · exact ⟨[Event.evalLexical], [Event.evalSemantic], Y, P, by simp [hYP, hS, hL, hmk],
        Or.inr rfl, Or.inr rfl, hY, hP⟩

/-- The trace of any body run: resolver only, resolver then stager, or the
full staged shape followed by the per-track events in fixed order. -/
theorem runBody_trace_shape (w : World) (a : Args) :
    (runBody w a).1.trace = [Event.resolver] ∨
    (runBody w a).1.trace = [Event.resolver, Event.stager] ∨
    ∃ L S Y P : List Event,
      (runBody w a).1.trace =
        [Event.resolver, Event.stager, Event.mkdirOutput] ++ L ++ S ++ Y ++ P ∧
      (L = [] ∨ L = [Event.evalLexical]) ∧ (S = [] ∨ S = [Event.evalSemantic]) ∧
      (Y = [] ∨ Y = [Event.evalSyntactic]) ∧ (P = [] ∨ P = [Event.evalPhonetic]) := by
  rcases runBody_char w a with ⟨_, hb⟩ | ⟨_, _, hb⟩ | ⟨_, _, hb⟩ | ⟨_, _, _, _, hb⟩ |
    ⟨_, _, hb⟩ <;> rw [hb]
  · exact Or.inl rfl
  · exact Or.inl rfl
  · exact Or.inr (Or.inl rfl)
  · exact Or.inr (Or.inl rfl)
  · right; right
    obtain ⟨L, S, Y, P, htr, hL, hS, hY, hP⟩ :=
      runTracks_trace w a (resolvedGold w a) (stagedRoot w a) (stagedState w a)
    refine ⟨L, S, Y, P, ?_, hL, hS, hY, hP⟩
    rw [htr]
    rfl

/-- C8 (corrected): on every run the Reference Resolver runs first, then the
Archive Stager, then the output-directory step, then the enabled track
evaluators in the fixed order lexical, semantic, syntactic, phonetic — the
whole trace is a sublist of this canonical order and begins with the
resolver. -/
theorem c8_component_order (w : World) (a : Args) :
    (runPipeline w a).trace.head? = some Event.resolver ∧
    (runPipeline w a).trace.Sublist fullTrace := by
  obtain ⟨_, _, htr, _, _, _⟩ := runPipeline_preserves w a
  rw [htr]
  rcases runBody_trace_shape w a with h | h | ⟨L, S, Y, P, h, hL, hS, hY, hP⟩ <;> rw [h]
  · exact ⟨rfl, by decide⟩
  · exact ⟨rfl, by decide⟩
  · have sL : L.Sublist [Event.evalLexical] := by
      rcases hL with h2 | h2 <;> rw [h2] <;> decide
    have sS : S.Sublist [Event.evalSemantic] := by
      rcases hS with h2 | h2 <;> rw [h2] <;> decide
    have sY : Y.Sublist [Event.evalSyntactic] := by
      rcases hY with h2 | h2 <;> rw [h2] <;> decide
    have sP : P.Sublist [Event.evalPhonetic] := by
      rcases hP with h2 | h2 <;> rw [h2] <;> decide
    have base : List.Sublist [Event.resolver, Event.stager, Event.mkdirOutput]
        [Event.resolver, Event.stager, Event.mkdirOutput] := List.Sublist.refl _
    have hfull := (((base.append sL).append sS).append sY).append sP
    constructor
    · rfl
    · have hshape : fullTrace =
          [Event.resolver, Event.stager, Event.mkdirOutput] ++ [Event.evalLexical] ++
            [Event.evalSemantic] ++ [Event.evalSyntactic] ++ [Event.evalPhonetic] := rfl
      rw [hshape]
      exact hfull

/-- Counterexample for C8 as stated: at a concrete full run both the stager
and the resolver execute, and the stager does not precede the resolver. -/
theorem c8_counterexample :
    Event.resolver ∈ (runPipeline wStd aStd).trace ∧
    Event.stager ∈ (runPipeline wStd aStd).trace ∧
    ¬ (runPipeline wStd aStd).trace.indexOf Event.stager <
        (runPipeline wStd aStd).trace.indexOf Event.resolver := by
  decide

/-- A name `pre ++ mid ++ suf` where `pre` is `score_<track>_` and `suf` is
`_<strat>.<ext>` follows the stratified naming scheme. -/
theorem hasStratName_trackfile (pre mid suf : String) (t r2 e : List Char)
    (h1 : "score_".data ++ (t ++ "_".data) = pre.data)
    (h2 : ("_".data : List Char) ++ (r2 ++ (".".data ++ e)) = suf.data) :
    hasStratName (pre ++ mid ++ suf) := by
  refine ⟨t, mid.data, r2, e, ?_⟩
  simp only [String.data_append, List.append_assoc]
  rw [← h1, ← h2]
  simp [List.append_assoc]

/-- Phonetic file names follow the stratified naming scheme. -/
theorem hasStratName_phonetic (k st : String) :
    hasStratName ("score_phonetic_" ++ k ++ "_" ++ st ++ ".csv") := by
  refine ⟨"phonetic".data, k.data, st.data, "csv".data, ?_⟩
  simp [String.data_append, List.append_assoc]

/-- Every file of the lexical evaluator is index-free csv with a stratified
name. -/
theorem eval_lexical_writtenOk (w : World) (d sub : String) (ks : List String) :
    ∀ f ∈ (eval_lexical w d sub ks).2.2, writtenOk f := by
  intro f hf
  unfold eval_lexical lexKind at hf
  simp at hf
  obtain ⟨k, _, hcase⟩ := hf
  rcases hcase with h | h | h <;> rw [h] <;> refine ⟨⟨_, rfl⟩, Or.inl ?_⟩
  · exact hasStratName_trackfile "score_lexical_" k "_by_pair.csv" "lexical".data
      "by_pair".data "csv".data (by decide) (by decide)
  · exact hasStratName_trackfile "score_lexical_" k "_by_frequency.csv" "lexical".data
      "by_frequency".data "csv".data (by decide) (by decide)
  · exact hasStratName_trackfile "score_lexical_" k "_by_length.csv" "lexical".data
      "by_length".data "csv".data (by decide) (by decide)

/-- Every file of the semantic evaluator is index-free csv named
`score_semantic_<split>.csv`. -/
theorem eval_semantic_writtenOk (w : World) (d sub : String) (ks : List String) :
    ∀ f ∈ (eval_semantic w d sub ks).2.2.1, writtenOk f := by
  intro f hf
  unfold eval_semantic semKind at hf
  rcases hr : readSemanticParams w.metaYaml with e | mp <;> rw [hr] at hf <;> simp at hf
  obtain ⟨k, _, h⟩ := hf
  rw [h]
  exact ⟨⟨_, rfl⟩, Or.inr ⟨k, rfl⟩⟩

/-- Every file of the syntactic evaluator is index-free csv with a
stratified name. -/
theorem eval_syntactic_writtenOk (w : World) (d sub : String) (ks : List String) :
    ∀ f ∈ (eval_syntactic w d sub ks).2.2, writtenOk f := by
  intro f hf
  unfold eval_syntactic synKind at hf
  simp at hf
  obtain ⟨k, _, hcase⟩ := hf
  rcases hcase with h | h <;> rw [h] <;> refine ⟨⟨_, rfl⟩, Or.inl ?_⟩
  · exact hasStratName_trackfile "score_syntactic_" k "_by_pair.csv" "syntactic".data
      "by_pair".data "csv".data (by decide) (by decide)
  · exact hasStratName_trackfile "score_syntactic_" k "_by_type.csv" "syntactic".data
      "by_type".data "csv".data (by decide) (by decide)

/-- Every file of the phonetic evaluator is index-free csv with a stratified
name. -/
theorem eval_phonetic_writtenOk (w : World) (d sub : String) (ks : List String) :
    ∀ f ∈ (eval_phonetic w d sub ks).2.2, writtenOk f := by
  intro f hf
  unfold eval_phonetic phonKind at hf
  simp at hf
  obtain ⟨k, _, st, tb, h⟩ := hf
  rw [← h.2]
  exact ⟨⟨_, rfl⟩, Or.inl (hasStratName_phonetic k st)⟩

/-- The track steps only write well-formed files. -/
theorem lexStep_writtenOk (w : World) (a : Args) (d sub : String) (s : BodyState)
    (hs : ∀ f ∈ s.written, writtenOk f) :
    ∀ f ∈ (lexStep w a d sub s).written, writtenOk f := by
  intro f hf
  unfold lexStep at hf
  split at hf
  · exact hs f hf
  · rw [addTrack_written] at hf
    rcases List.mem_append.mp hf with h | h
    · exact hs f h
    · exact eval_lexical_writtenOk w d sub s.kinds f h

theorem semStep_writtenOk (w : World) (a : Args) (d sub : String) (s : BodyState)
    (hs : ∀ f ∈ s.written, writtenOk f) :
    ∀ f ∈ (semStep w a d sub s).1.written, writtenOk f := by
  intro f hf
  unfold semStep at hf
  split at hf
  · exact hs f hf
  · rw [addTrack_written] at hf
    rcases List.mem_append.mp hf with h | h
    · exact hs f h
    · exact eval_semantic_writtenOk w d sub s.kinds f h

theorem synStep_writtenOk (w : World) (a : Args) (d sub : String) (s : BodyState)
    (hs : ∀ f ∈ s.written, writtenOk f) :
    ∀ f ∈ (synStep w a d sub s).written, writtenOk f := by
  intro f hf
  unfold synStep at hf
  split at hf
  · exact hs f hf
  · rw [addTrack_written] at hf
    rcases List.mem_append.mp hf with h | h
    · exact hs f h
    · exact eval_syntactic_writtenOk w d sub s.kinds f h

theorem phonStep_writtenOk (w : World) (a : Args) (d sub : String) (s : BodyState)
    (hs : ∀ f ∈ s.written, writtenOk f) :
    ∀ f ∈ (phonStep w a d sub s).written, writtenOk f := by
  intro f hf
  unfold phonStep at hf
  split at hf
  · exact hs f hf
  · rw [addTrack_written] at hf
    rcases List.mem_append.mp hf with h | h
    · exact hs f h
    · exact eval_phonetic_writtenOk w d sub s.kinds f h

/-- The whole track phase only writes well-formed files. -/
theorem runTracks_writtenOk (w : World) (a : Args) (d sub : String) (s1 : BodyState)
    (hs : ∀ f ∈ s1.written, writtenOk f) :
    ∀ f ∈ (runTracks w a d sub s1).1.written, writtenOk f := by
  have hm : ∀ f ∈ (mkdirStep w a s1).written, writtenOk f := hs
  have hl := lexStep_writtenOk w a d sub _ hm
  have hsem := semStep_writtenOk w a d sub _ hl
  intro f hmem
  unfold runTracks at hmem
  dsimp only at hmem
  rcases hq : semStep w a d sub (lexStep w a d sub (mkdirStep w a s1)) with ⟨s4, e⟩
  rw [hq] at hmem
  have hs4 : ∀ x ∈ s4.written, writtenOk x := by
    intro x hx
    apply hsem
    rw [hq]
    exact hx
  cases e
  · exact phonStep_writtenOk w a d sub _ (synStep_writtenOk w a d sub _ hs4) f hmem
  · exact hs4 f hmem

/-- C5 (corrected): every file the pipeline writes is the writer's
serialization of a score table — header row, 4-decimal numeric rendering,
no index column — and its name is stratified (`score_<track>_<split>_
<stratification>.<ext>`) for the lexical, syntactic and phonetic tracks but
NOT for the semantic track, whose file is named `score_semantic_<split>.csv`
with no stratification segment. -/
theorem c5_file_format (w : World) (a : Args) :
    ∀ f ∈ (runPipeline w a).written,
      (∃ t : ScoreTable, f.2 = toCsvLines t false) ∧
      (hasStratName f.1 ∨ ∃ k : String, f.1 = "score_semantic_" ++ k ++ ".csv") := by
  intro f hf
  obtain ⟨_, _, _, _, hwr, _⟩ := runPipeline_preserves w a
  rw [hwr] at hf
  rcases runBody_char w a with ⟨_, hb⟩ | ⟨_, _, hb⟩ | ⟨_, _, hb⟩ | ⟨_, _, _, _, hb⟩ |
    ⟨_, _, hb⟩ <;> rw [hb] at hf
  · simp [initState] at hf
  · simp [initState] at hf
  · simp [stagerState, initState] at hf
  · simp [stagerState, initState] at hf
  · refine runTracks_writtenOk w a _ _ _ ?_ f hf
    intro x hx
    simp [stagedState, initState] at hx

/-- Any stratified name carries at least three underscores. -/
theorem hasStratName_count (n : String) (h : hasStratName n) : 3 ≤ n.data.count '_' := by
  obtain ⟨t, s, r2, e, hn⟩ := h
  rw [hn]
  simp only [List.count_append]
  have c1 : "score_".data.count '_' = 1 := by decide
  have c2 : "_".data.count '_' = 1 := by decide
  rw [c1, c2]
  omega

/-- Counterexample for C5 as stated: a concrete full run writes the file
`score_semantic_dev.csv`, whose name (two underscores only) has no
stratification segment and therefore does not match
`score_<track>_<split>_<stratification>.<ext>`. -/
theorem c5_semantic_name_counterexample :
    "score_semantic_dev.csv" ∈ (runPipeline wStd aStd).written.map Prod.fst ∧
    ¬ hasStratName "score_semantic_dev.csv" := by
  constructor
  · decide
  · intro h
    have hge := hasStratName_count _ h
    have hc : ("score_semantic_dev.csv").data.count '_' = 2 := by decide
    omega

/-- Witness for C5 (corrected) at a concrete written file. -/
theorem c5_file_format_witness :
    ∃ t : ScoreTable,
      (("score_lexical_dev_by_pair.csv", toCsvLines tbl0 false) : String × List String).2 =
        toCsvLines t false :=
  (c5_file_format wStd aStd ("score_lexical_dev_by_pair.csv", toCsvLines tbl0 false)
    (by decide)).1

/-- C6: with no test-gold override, a valid dataset and directory
submission, and every track except lexical disabled, the run succeeds and
writes exactly three files — score_lexical_dev_by_pair.csv,
score_lexical_dev_by_frequency.csv, score_lexical_dev_by_length.csv — each
an index-free serialized table whose first line is the header row. -/
theorem c6_lexical_only (w : World) (a : Args)
    (henv : w.env = none)
    (hd : datasetOk w a)
    (hs1 : w.pathExistsF a.submission = true) (hs2 : w.isDirF a.submission = true)
    (hzip : (w.isFileF a.submission && w.isZipF a.submission) = false)
    (hlex : a.noLexical = false) (hsem : a.noSemantic = true)
    (hsyn : a.noSyntactic = true) (hphon : a.noPhonetic = true) :
    (runPipeline w a).outcome = Outcome.success ∧
    (runPipeline w a).written.map Prod.fst =
      ["score_lexical_dev_by_pair.csv", "score_lexical_dev_by_frequency.csv",
       "score_lexical_dev_by_length.csv"] ∧
    ∀ f ∈ (runPipeline w a).written, ∃ t : ScoreTable,
      f.2 = toCsvLines t false ∧ f.2.head? = some (String.intercalate "," t.header) := by
  have hbody := runBody_valid w a hd ⟨hs1, Or.inr hs2⟩
  have hks : (mkdirStep w a (stagedState w a)).kinds = ["dev"] := by
    simp [mkdirStep, stagedState, initState, henv]
  have hrt : runTracks w a (resolvedGold w a) (stagedRoot w a) (stagedState w a) =
      (addTrack (mkdirStep w a (stagedState w a)) Event.evalLexical
         (eval_lexical w (resolvedGold w a) (stagedRoot w a) ["dev"]).1
         (eval_lexical w (resolvedGold w a) (stagedRoot w a) ["dev"]).2.1
         (eval_lexical w (resolvedGold w a) (stagedRoot w a) ["dev"]).2.2, none) := by
    unfold runTracks lexStep semStep tailTracks synStep phonStep
    rw [hks]
    simp [hlex, hsem, hsyn, hphon]
  have hfull : runBody w a =
      (addTrack (mkdirStep w a (stagedState w a)) Event.evalLexical
         (eval_lexical w (resolvedGold w a) (stagedRoot w a) ["dev"]).1
         (eval_lexical w (resolvedGold w a) (stagedRoot w a) ["dev"]).2.1
         (eval_lexical w (resolvedGold w a) (stagedRoot w a) ["dev"]).2.2, none) :=
    hbody.trans hrt
  have hwempty : (mkdirStep w a (stagedState w a)).written = [] := by
    simp [mkdirStep, stagedState, initState]
  obtain ⟨_, _, _, _, hwr, _⟩ := runPipeline_preserves w a
  have houtcome : (runPipeline w a).outcome = Outcome.success := by
    unfold runPipeline
    rw [hfull]
  have hwritten : (runPipeline w a).written =
      (eval_lexical w (resolvedGold w a) (stagedRoot w a) ["dev"]).2.2 := by
    rw [hwr, hfull, addTrack_written, hwempty, List.nil_append]
  refine ⟨houtcome, ?_, ?_⟩
  · rw [hwritten]
    simp [eval_lexical, lexKind]
  · intro f hf
    rw [hwritten] at hf
    unfold eval_lexical lexKind at hf
    simp at hf
    rcases hf with h | h | h <;> rw [h] <;> exact ⟨_, rfl, rfl⟩

/-- Witness for C6 at the concrete lexical-only run. -/
theorem c6_lexical_only_witness :
    (runPipeline wStd aLex).outcome = Outcome.success ∧
    (runPipeline wStd aLex).written.map Prod.fst =
      ["score_lexical_dev_by_pair.csv", "score_lexical_dev_by_frequency.csv",
       "score_lexical_dev_by_length.csv"] :=
  ⟨(c6_lexical_only wStd aLex rfl (by constructor <;> decide) (by decide) (by decide)
      (by decide) rfl rfl rfl rfl).1,
   (c6_lexical_only wStd aLex rfl (by constructor <;> decide) (by decide) (by decide)
      (by decide) rfl rfl rfl rfl).2.1⟩

/-- A prefix determines every initial segment. -/
theorem take_eq_of_prefix (x n : List Char) (m : Nat) (hm : m ≤ x.length)
    (h : x <+: n) : x.take m = n.take m := by
  obtain ⟨t, rfl⟩ := h
  rw [List.take_append_of_le_length hm]

/-- A name whose first nine characters differ from `score_<track>`'s first
nine characters does not carry that track's score prefix. -/
theorem not_scorePrefixed_of_9 (T : Track) (pre rest : List Char) (n : String)
    (hn : n.data = pre ++ rest) (hlen : 9 ≤ pre.length)
    (hne : ("score_" ++ trackName T).data.take 9 ≠ pre.take 9) :
    ¬ scorePrefixedBy T n := by
  intro hcon
  unfold scorePrefixedBy at hcon
  rw [hn] at hcon
  have h9 : 9 ≤ ("score_" ++ trackName T).data.length := by cases T <;> decide
  have heq := take_eq_of_prefix _ _ 9 h9 hcon
  rw [List.take_append_of_le_length hlen] at heq
  exact hne heq

/-- Files and accesses of the lexical evaluator never touch another track's
name prefix or sub-tree. -/
theorem eval_lexical_untouched (w : World) (d sub : String) (ks : List String)
    (T : Track) (hT : T ≠ Track.lexical) :
    (∀ f ∈ (eval_lexical w d sub ks).2.2, ¬ scorePrefixedBy T f.1) ∧
    (∀ p ∈ (eval_lexical w d sub ks).2.1, p.segs.head? ≠ some (trackName T)) := by
  constructor
  · intro f hf
    unfold eval_lexical lexKind at hf
    simp at hf
    obtain ⟨k, _, hcase⟩ := hf
    rcases hcase with h | h | h <;> rw [h]
    · exact not_scorePrefixed_of_9 T "score_lexical_".data
        (k.data ++ "_by_pair.csv".data) _ (by simp [String.data_append])
        (by decide) (by cases T <;> simp_all [trackName] <;> decide)
    · exact not_scorePrefixed_of_9 T "score_lexical_".data
        (k.data ++ "_by_frequency.csv".data) _ (by simp [String.data_append])
        (by decide) (by cases T <;> simp_all [trackName] <;> decide)
    · exact not_scorePrefixed_of_9 T "score_lexical_".data
        (k.data ++ "_by_length.csv".data) _ (by simp [String.data_append])
        (by decide) (by cases T <;> simp_all [trackName] <;> decide)
  · intro p hp
    unfold eval_lexical lexKind at hp
    simp at hp
    obtain ⟨k, _, hcase⟩ := hp
    rcases hcase with h | h <;> subst h <;> cases T <;> simp_all [trackName]

/-- Files and accesses of the semantic evaluator never touch another
track's name prefix or sub-tree (meta.yaml sits at the submission root,
outside every track sub-tree). -/
theorem eval_semantic_untouched (w : World) (d sub : String) (ks : List String)
    (T : Track) (hT : T ≠ Track.semantic) :
    (∀ f ∈ (eval_semantic w d sub ks).2.2.1, ¬ scorePrefixedBy T f.1) ∧
    (∀ p ∈ (eval_semantic w d sub ks).2.1, p.segs.head? ≠ some (trackName T)) := by
  constructor
  · intro f hf
    unfold eval_semantic semKind at hf
    rcases hr : readSemanticParams w.metaYaml with e | mp <;> rw [hr] at hf <;> simp at hf
    obtain ⟨k, _, h⟩ := hf
    rw [h]
    exact not_scorePrefixed_of_9 T "score_semantic_".data
      (k.data ++ ".csv".data) _ (by simp [String.data_append])
      (by decide) (by cases T <;> simp_all [trackName] <;> decide)
  · intro p hp
    unfold eval_semantic semKind at hp
    rcases hr : readSemanticParams w.metaYaml with e | mp <;> rw [hr] at hp <;> simp at hp
    · subst hp
      cases T <;> simp_all [trackName]
    · rcases hp with h | ⟨k, _, hcase⟩
      · subst h
        cases T <;> simp_all [trackName]
      · rcases hcase with h | h | h <;> subst h <;> cases T <;> simp_all [trackName]

/-- Files and accesses of the syntactic evaluator never touch another
track's name prefix or sub-tree. -/
theorem eval_syntactic_untouched (w : World) (d sub : String) (ks : List String)
    (T : Track) (hT : T ≠ Track.syntactic) :
    (∀ f ∈ (eval_syntactic w d sub ks).2.2, ¬ scorePrefixedBy T f.1) ∧
    (∀ p ∈ (eval_syntactic w d sub ks).2.1, p.segs.head? ≠ some (trackName T)) := by
  constructor
  · intro f hf
    unfold eval_syntactic synKind at hf
    simp at hf
    obtain ⟨k, _, hcase⟩ := hf
    rcases hcase with h | h <;> rw [h]
    · exact not_scorePrefixed_of_9 T "score_syntactic_".data
        (k.data ++ "_by_pair.csv".data) _ (by simp [String.data_append])
        (by decide) (by cases T <;> simp_all [trackName] <;> decide)
    · exact not_scorePrefixed_of_9 T "score_syntactic_".data
        (k.data ++ "_by_type.csv".data) _ (by simp [String.data_append])
        (by decide) (by cases T <;> simp_all [trackName] <;> decide)
  · intro p hp
    unfold eval_syntactic synKind at hp
    simp at hp
    obtain ⟨k, _, hcase⟩ := hp
    rcases hcase with h | h <;> subst h <;> cases T <;> simp_all [trackName]

/-- Files and accesses of the phonetic evaluator never touch another
track's name prefix or sub-tree. -/
theorem eval_phonetic_untouched (w : World) (d sub : String) (ks : List String)
    (T : Track) (hT : T ≠ Track.phonetic) :
    (∀ f ∈ (eval_phonetic w d sub ks).2.2, ¬ scorePrefixedBy T f.1) ∧
    (∀ p ∈ (eval_phonetic w d sub ks).2.1, p.segs.head? ≠ some (trackName T)) := by
  constructor
  · intro f hf
    unfold eval_phonetic phonKind at hf
    simp at hf
    obtain ⟨k, _, st, tb, h⟩ := hf
    rw [← h.2]
    refine not_scorePrefixed_of_9 T "score_phonetic_".data
      (k.data ++ ("_".data ++ (st.data ++ ".csv".data))) _ (by simp [String.data_append])
      (by decide) (by cases T <;> simp_all [trackName] <;> decide)
  · intro p hp
    unfold eval_phonetic phonKind at hp
    simp at hp
    obtain ⟨k, _, hcase⟩ := hp
    rcases hcase with h | h <;> subst h <;> cases T <;> simp_all [trackName]

/-- Each step preserves the frame condition of a skipped track. -/
theorem lexStep_untouched (w : World) (a : Args) (d sub : String) (s : BodyState)
    (T : Track) (hT : skipFlag a T = true) (hs : trackUntouched T s) :
    trackUntouched T (lexStep w a d sub s) := by
  unfold lexStep
  split
  · exact hs
  · rename_i hrun
    have hTne : T ≠ Track.lexical := by
      intro he
      subst he
      simp [skipFlag] at hT
      simp [hT] at hrun
    obtain ⟨h1, h2⟩ := eval_lexical_untouched w d sub s.kinds T hTne
    refine ⟨?_, ?_⟩
    · intro f hf
      rw [addTrack_written] at hf
      rcases List.mem_append.mp hf with h | h
      · exact hs.1 f h
      · exact h1 f h
    · intro p hp
      rw [addTrack_accessed] at hp
      rcases List.mem_append.mp hp with h | h
      · exact hs.2 p h
      · exact h2 p h

theorem semStep_untouched (w : World) (a : Args) (d sub : String) (s : BodyState)
    (T : Track) (hT : skipFlag a T = true) (hs : trackUntouched T s) :
    trackUntouched T (semStep w a d sub s).1 := by
  unfold semStep
  split
  · exact hs
  · rename_i hrun
    have hTne : T ≠ Track.semantic := by
      intro he
      subst he
      simp [skipFlag] at hT
      simp [hT] at hrun
    obtain ⟨h1, h2⟩ := eval_semantic_untouched w d sub s.kinds T hTne
    refine ⟨?_, ?_⟩
    · intro f hf
      rw [addTrack_written] at hf
      rcases List.mem_append.mp hf with h | h
      · exact hs.1 f h
      · exact h1 f h
    · intro p hp
      rw [addTrack_accessed] at hp
      rcases List.mem_append.mp hp with h | h
      · exact hs.2 p h
      · exact h2 p h

theorem synStep_untouched (w : World) (a : Args) (d sub : String) (s : BodyState)
    (T : Track) (hT : skipFlag a T = true) (hs : trackUntouched T s) :
    trackUntouched T (synStep w a d sub s) := by
  unfold synStep
  split
  · exact hs
  · rename_i hrun
    have hTne : T ≠ Track.syntactic := by
      intro he
      subst he
      simp [skipFlag] at hT
      simp [hT] at hrun
    obtain ⟨h1, h2⟩ := eval_syntactic_untouched w d sub s.kinds T hTne
    refine ⟨?_, ?_⟩
    · intro f hf
      rw [addTrack_written] at hf
      rcases List.mem_append.mp hf with h | h
      · exact hs.1 f h
      · exact h1 f h
    · intro p hp
      rw [addTrack_accessed] at hp
      rcases List.mem_append.mp hp with h | h
      · exact hs.2 p h
      · exact h2 p h

theorem phonStep_untouched (w : World) (a : Args) (d sub : String) (s : BodyState)
    (T : Track) (hT : skipFlag a T = true) (hs : trackUntouched T s) :
    trackUntouched T (phonStep w a d sub s) := by
  unfold phonStep
  split
  · exact hs
  · rename_i hrun
    have hTne : T ≠ Track.phonetic := by
      intro he
      subst he
      simp [skipFlag] at hT
      simp [hT] at hrun
    obtain ⟨h1, h2⟩ := eval_phonetic_untouched w d sub s.kinds T hTne
    refine ⟨?_, ?_⟩
    · intro f hf
      rw [addTrack_written] at hf
      rcases List.mem_append.mp hf with h | h
      · exact hs.1 f h
      · exact h1 f h
    · intro p hp
      rw [addTrack_accessed] at hp
      rcases List.mem_append.mp hp with h | h
      · exact hs.2 p h
      · exact h2 p h

/-- The whole track phase preserves the frame condition of a skipped
track. -/
theorem runTracks_untouched (w : World) (a : Args) (d sub : String) (s1 : BodyState)
    (T : Track) (hT : skipFlag a T = true) (hs : trackUntouched T s1) :
    trackUntouched T (runTracks w a d sub s1).1 := by
  have hm : trackUntouched T (mkdirStep w a s1) := hs
  have hl := lexStep_untouched w a d sub _ T hT hm
  have hsem := semStep_untouched w a d sub _ T hT hl
  unfold runTracks
  dsimp only
  rcases hq : semStep w a d sub (lexStep w a d sub (mkdirStep w a s1)) with ⟨s4, e⟩
  rw [hq] at hsem
  cases e
  · exact phonStep_untouched w a d sub _ T hT (synStep_untouched w a d sub _ T hT hsem)
  · exact hsem

/-- C7: when a track's skip flag is set, the run writes no file whose name
carries that track's `score_<track>` prefix and never accesses that track's
gold or submission sub-tree (so neither sub-tree needs to exist). -/
theorem c7_skipped_track_untouched (w : World) (a : Args) (T : Track)
    (hT : skipFlag a T = true) :
    (∀ f ∈ (runPipeline w a).written, ¬ scorePrefixedBy T f.1) ∧
    (∀ p ∈ (runPipeline w a).accessed, p.segs.head? ≠ some (trackName T)) := by
  obtain ⟨_, _, _, hacc, hwr, _⟩ := runPipeline_preserves w a
  rw [hacc, hwr]
  rcases runBody_char w a with ⟨_, hb⟩ | ⟨_, _, hb⟩ | ⟨_, _, hb⟩ | ⟨_, _, _, _, hb⟩ |
    ⟨_, _, hb⟩ <;> rw [hb]
  · exact ⟨by intro f hf; simp [initState] at hf, by intro p hp; simp [initState] at hp⟩
  · exact ⟨by intro f hf; simp [initState] at hf, by intro p hp; simp [initState] at hp⟩
  · exact ⟨by intro f hf; simp [stagerState, initState] at hf,
      by intro p hp; simp [stagerState, initState] at hp⟩
  · exact ⟨by intro f hf; simp [stagerState, initState] at hf,
      by intro p hp; simp [stagerState, initState] at hp⟩
  · refine runTracks_untouched w a _ _ _ T hT ⟨?_, ?_⟩
    · intro f hf
      simp [stagedState, initState] at hf
    · intro p hp
      simp [stagedState, initState] at hp

/-- Witness for C7: with the lexical track skipped, no written file of a
concrete full run carries the `score_lexical` prefix. -/
theorem c7_skipped_track_untouched_witness :
    ¬ scorePrefixedBy Track.lexical
      (("score_semantic_dev.csv", toCsvLines tbl0 false) : String × List String).1 :=
  (c7_skipped_track_untouched wStd { aStd with noLexical := true } Track.lexical rfl).1
    ("score_semantic_dev.csv", toCsvLines tbl0 false) (by decide)

end ZR2021
